import Mathlib

/-!
Shallow embedding of the standalone migration runner
(`packages/happy-server/sources/standalone.ts`) and proofs of its
specified properties.

The embedding models:
- the migrations root on disk as a list of directory entries;
- the backing store as the `_prisma_migrations` tracking rows plus an
  abstract schema state (the ordered log of SQL batches executed);
- `migrate`'s main loop (`runUnits`): skip units already in the applied
  set, skip units with no `migration.sql`, execute the script, insert a
  completion record (subject to the `migration_name` UNIQUE constraint),
  and stop on the first failure with a non-zero exit;
- root resolution over the ordered candidate list (cwd first, then the
  executable's directory);
- the CLI command switch;
- `serve`'s environment mutation, with JavaScript string falsiness
  (`||` and `!`) modelled explicitly.

SQL execution by the database engine is external; it is parametrised by
a predicate `sqlFails` saying which script texts fail.  UUID generation
is parametrised by `uuidGen`, indexed by how many units were applied so
far in the run, and `now` stands for the current timestamp.
-/

namespace Happy

/-! ### Byte-wise lexical order on strings

JavaScript's default `Array.prototype.sort` compares strings
lexicographically; directory names sort by their code units.  We model
this with a structurally recursive lexicographic comparison on the
character list of a string, so that it evaluates inside the kernel. -/

/-- Lexicographic "less or equal" on character lists. -/
def lexLe : List Char → List Char → Bool
  | [], _ => true
  | _ :: _, [] => false
  | a :: as, b :: bs => if a < b then true else if b < a then false else lexLe as bs

/-- Lexicographic "strictly less" on character lists. -/
def lexLt : List Char → List Char → Bool
  | [], [] => false
  | [], _ :: _ => true
  | _ :: _, [] => false
  | a :: as, b :: bs => if a < b then true else if b < a then false else lexLt as bs

/-- Byte-wise lexical "less or equal" on strings. -/
def strLe (a b : String) : Bool := lexLe a.data b.data

/-- Byte-wise lexical "strictly less" on strings. -/
def strLt (a b : String) : Bool := lexLt a.data b.data

/-- Insert a string into a lexically sorted list (helper of `sortStrings`). -/
def sortInsert (x : String) : List String → List String
  | [] => [x]
  | y :: ys => if strLe x y then x :: y :: ys else y :: sortInsert x ys

/-- Sorting a list of strings into ascending lexical order: the model of
`Array.prototype.sort()` on the directory-name list.  (On `String` lists
any two sorting algorithms agree extensionally, because the lexical
order is total and antisymmetric.) -/
def sortStrings : List String → List String
  | [] => []
  | x :: xs => sortInsert x (sortStrings xs)

/-! ### Filesystem and store model -/

/-- One entry of the migrations root directory: its name, whether it is
a subdirectory, whether it contains a `migration.sql` file, and that
file's text. -/
structure Entry where
  name : String
  isDir : Bool
  hasScript : Bool
  script : String
deriving DecidableEq, Repr

/-- One row of the `_prisma_migrations` tracking table. -/
structure Row where
  id : String
  migration_name : String
  finished_at : Option Nat
  started_at : Nat
  applied_steps_count : Nat
  logs : Option String
deriving DecidableEq, Repr

/-- The backing store: the tracking-table rows and an abstract schema
state, recorded as the ordered log of SQL batches executed so far. -/
structure Store where
  rows : List Row
  schema : List String
deriving DecidableEq, Repr

/-- Model of `readdirSync(root).filter(isDirectory).sort()`: the subdirectory
names of the migrations root in ascending lexical order. -/
def listDirs (root : List Entry) : List String :=
  sortStrings ((root.filter (fun e => e.isDir)).map (fun e => e.name))

/-- Model of `existsSync(join(root, d, "migration.sql"))` plus `readFileSync`:
the script text of unit `d`, or `none` when the directory has no
`migration.sql`. -/
def sqlFileOf (root : List Entry) (d : String) : Option String :=
  match root.find? (fun e => decide (e.name = d) && e.isDir) with
  | some e => if e.hasScript then some e.script else none
  | none => none

/-- Model of `SELECT "migration_name" FROM "_prisma_migrations" WHERE
"finished_at" IS NOT NULL`: the applied set. -/
def appliedNames (s : Store) : List String :=
  (s.rows.filter (fun r => r.finished_at.isSome)).map (fun r => r.migration_name)

/-- Outcome of one `migrate` run: final store, `appliedCount`, the
ordered list of unit ids whose scripts were passed to `pg.exec` this
run, and—on failure—the failing unit and the cause (the source calls
`process.exit(1)` there). -/
structure RunOutcome where
  store : Store
  appliedCount : Nat
  execTrace : List String
  failed : Option (String × String)
deriving DecidableEq, Repr

/-- The `for (const dir of dirs)` loop of `migrate`: skip units in the
applied set, skip units with no script file, otherwise execute the
script and insert the completion record (`finished_at = now()`,
`applied_steps_count = 1`); the insert fails when a row with the same
`migration_name` already exists (UNIQUE constraint).  On either failure
the run stops at once. -/
def runUnits (sqlFails : String → Bool) (uuidGen : Nat → String) (now : Nat)
    (root : List Entry) (appliedSet : List String) :
    List String → Store → Nat → List String → RunOutcome
  | [], s, count, tr => ⟨s, count, tr, none⟩
  | d :: rest, s, count, tr =>
    if d ∈ appliedSet then
      runUnits sqlFails uuidGen now root appliedSet rest s count tr
    else
      match sqlFileOf root d with
      | none => runUnits sqlFails uuidGen now root appliedSet rest s count tr
      | some sql =>
        if sqlFails sql then
          ⟨s, count, tr ++ [d], some (d, "script execution failed")⟩
        else if s.rows.any (fun r => decide (r.migration_name = d)) then
          ⟨⟨s.rows, s.schema ++ [sql]⟩, count, tr ++ [d],
            some (d, "completion-record insert failed")⟩
        else
          runUnits sqlFails uuidGen now root appliedSet rest
            ⟨s.rows ++ [⟨uuidGen count, d, some now, now, 1, none⟩], s.schema ++ [sql]⟩
            (count + 1) (tr ++ [d])

/-- One `migrate` run against a resolved migrations root: list and sort
the subdirectories, query the applied set once, then run the loop. -/
def migrateRun (sqlFails : String → Bool) (uuidGen : Nat → String) (now : Nat)
    (root : List Entry) (s : Store) : RunOutcome :=
  runUnits sqlFails uuidGen now root (appliedNames s) (listDirs root) s 0 []

/-- The process exit status of a `migrate` run that got past root
resolution: 1 on failure (`process.exit(1)` in the catch), 0 otherwise. -/
def runExit (o : RunOutcome) : Nat := if o.failed.isSome then 1 else 0

/-! ### Root resolution and the top-level migrate entry -/

/-- The ordered candidate locations for the migrations root: first
relative to the current working directory, then relative to the
directory of the running executable. -/
def rootCandidates (cwd execDir : String) : List String :=
  [cwd ++ "/prisma/migrations", execDir ++ "/prisma/migrations"]

/-- Root resolution: the first candidate that exists on disk. -/
def resolveRoot (existsFs : String → Bool) (cwd execDir : String) : Option String :=
  (rootCandidates cwd execDir).find? existsFs

/-- Result of the whole `migrate` phase: either no migrations root was
found (the source prints an error and exits 1 before touching any unit)
or a run happened. -/
inductive MigrateTopResult where
  | rootNotFound : MigrateTopResult
  | ran : RunOutcome → MigrateTopResult
deriving DecidableEq, Repr

/-- The `migrate` phase: resolve the root among the candidates, then
run; `fsAt` gives the directory listing at each path. -/
def migrateTop (existsFs : String → Bool) (cwd execDir : String)
    (fsAt : String → List Entry) (sqlFails : String → Bool)
    (uuidGen : Nat → String) (now : Nat) (s : Store) : MigrateTopResult :=
  match resolveRoot existsFs cwd execDir with
  | none => .rootNotFound
  | some r => .ran (migrateRun sqlFails uuidGen now (fsAt r) s)

/-- Exit status of the `migrate` phase. -/
def migrateTopExit : MigrateTopResult → Nat
  | .rootNotFound => 1
  | .ran o => runExit o

/-! ### CLI dispatcher -/

/-- What the command switch decides to do. -/
inductive DispatchAction where
  | runMigrate : DispatchAction
  | runServe : DispatchAction
  | usage : Nat → DispatchAction
deriving DecidableEq, Repr

/-- The `switch (command)` at the bottom of the file: `process.argv[2]`
is `none` when absent; the default branch prints usage and exits 0
exactly for `--help` or `-h`, else 1. -/
def dispatch (command : Option String) : DispatchAction :=
  if command = some "migrate" then .runMigrate
  else if command = some "serve" then .runServe
  else .usage (if command = some "--help" ∨ command = some "-h" then 0 else 1)

/-! ### Environment and the serve phase -/

/-- The environment variables the module reads or writes.  A variable is
`none` when absent from the environment; `some ""` is present but
empty—distinct in the environment, but falsy to JavaScript. -/
structure Env where
  DATA_DIR : Option String
  PGLITE_DIR : Option String
  DATABASE_URL : Option String
  others : List (String × String)
deriving DecidableEq, Repr

/-- JavaScript truthiness of an environment string: absent and empty are
both falsy. -/
def truthy : Option String → Bool
  | none => false
  | some s => !(decide (s = ""))

/-- JavaScript `v || dflt` for environment strings. -/
def jsOr (v : Option String) (dflt : String) : String :=
  match v with
  | some s => if s = "" then dflt else s
  | none => dflt

/-- Model of `const dataDir = process.env.DATA_DIR || "./data"`. -/
def dataDir (e : Env) : String := jsOr e.DATA_DIR "./data"

/-- Model of `const pgliteDir = process.env.PGLITE_DIR || path.join(dataDir, "pglite")`. -/
def pgliteDirOf (e : Env) : String := jsOr e.PGLITE_DIR (dataDir e ++ "/pglite")

/-- The environment after `serve`'s setup, just before it imports the
main server module: when `DATABASE_URL` is falsy, `PGLITE_DIR` is
assigned `process.env.PGLITE_DIR || pgliteDir`; otherwise nothing is
touched.  `serve` performs no store operation itself. -/
def serveEnv (e : Env) : Env :=
  if truthy e.DATABASE_URL then e
  else { e with PGLITE_DIR := some (jsOr e.PGLITE_DIR (pgliteDirOf e)) }

/-- The units of `l` that a run starting from applied set `A` would
execute: not yet applied and having a script file. -/
def pendingOf (root : List Entry) (A : List String) (l : List String) : List String :=
  l.filter (fun d => !(decide (d ∈ A)) && (sqlFileOf root d).isSome)

/-- The migrations root after deleting directory `d`'s `migration.sql`
(directory structure and all other entries unchanged). -/
def setNoScript (root : List Entry) (d : String) : List Entry :=
  root.map (fun e => if e.name = d then ⟨e.name, e.isDir, false, ""⟩ else e)

/-! ### Lemmas about the lexical order -/

theorem lexLe_total : ∀ as bs : List Char, lexLe as bs = true ∨ lexLe bs as = true
  | [], _ => Or.inl rfl
  | _ :: _, [] => Or.inr rfl
  | a :: as, b :: bs => by
    rcases lt_trichotomy a b with h | h | h
    · left; simp [lexLe, h]
    · subst h
      rcases lexLe_total as bs with ih | ih
      · left; simp [lexLe, ih]
      · right; simp [lexLe, ih]
    · right; simp [lexLe, h]

theorem lexLe_refl : ∀ as : List Char, lexLe as as = true
  | [] => rfl
  | _ :: as => by simp [lexLe, lexLe_refl as]

theorem lexLe_trans : ∀ as bs cs : List Char,
    lexLe as bs = true → lexLe bs cs = true → lexLe as cs = true
  | [], _, _, _, _ => rfl
  | a :: as, [], _, h, _ => by simp [lexLe] at h
  | a :: as, b :: bs, [], _, h => by simp [lexLe] at h
  | a :: as, b :: bs, c :: cs, h1, h2 => by
    simp only [lexLe] at h1 h2 ⊢
    split at h1
    · rename_i hab
      split at h2
      · rename_i hbc
        simp [lt_trans hab hbc]
      · split at h2
        · exact absurd h2 (by simp)
        · rename_i hcb hbc
          have : b = c := le_antisymm (not_lt.mp hbc) (not_lt.mp hcb)
          subst this
          simp [hab]
    · split at h1
      · exact absurd h1 (by simp)
      · rename_i hba hab
        have hae : a = b := le_antisymm (not_lt.mp hab) (not_lt.mp hba)
        subst hae
        split at h2
        · rename_i hac
          simp [hac]
        · split at h2
          · exact absurd h2 (by simp)
          · rename_i hca hac
            have : a = c := le_antisymm (not_lt.mp hac) (not_lt.mp hca)
            subst this
            simp [lexLe_trans as bs cs h1 h2]

theorem lexLe_antisymm : ∀ as bs : List Char,
    lexLe as bs = true → lexLe bs as = true → as = bs
  | [], [], _, _ => rfl
  | [], _ :: _, _, h => by simp [lexLe] at h
  | _ :: _, [], h, _ => by simp [lexLe] at h
  | a :: as, b :: bs, h1, h2 => by
    simp only [lexLe] at h1 h2
    split at h1
    · rename_i hab
      rw [if_neg (asymm hab), if_pos hab] at h2
      exact absurd h2 (by simp)
    · split at h1
      · exact absurd h1 (by simp)
      · rename_i hba hab
        have hae : a = b := le_antisymm (not_lt.mp hab) (not_lt.mp hba)
        subst hae
        simp only [lt_irrefl, if_false] at h2
        rw [lexLe_antisymm as bs h1 h2]

theorem lexLt_iff : ∀ as bs : List Char,
    lexLt as bs = true ↔ lexLe as bs = true ∧ as ≠ bs
  | [], [] => by simp [lexLt, lexLe]
  | [], _ :: _ => by simp [lexLt, lexLe]
  | _ :: _, [] => by simp [lexLt, lexLe]
  | a :: as, b :: bs => by
    simp only [lexLt, lexLe]
    split
    · rename_i hab
      simp only [true_iff, true_and, ne_eq, List.cons.injEq, not_and]
      intro h; exact absurd hab (h ▸ lt_irrefl a)
    · split
    <;> rename_i h1 h2
      · simp
      · have hae : a = b := le_antisymm (not_lt.mp h2) (not_lt.mp h1)
        subst hae
        rw [lexLt_iff as bs]
        simp

theorem strLe_total (a b : String) : strLe a b = true ∨ strLe b a = true :=
  lexLe_total a.data b.data

theorem strLe_trans {a b c : String} (h1 : strLe a b = true) (h2 : strLe b c = true) :
    strLe a c = true :=
  lexLe_trans a.data b.data c.data h1 h2

theorem strLe_antisymm {a b : String} (h1 : strLe a b = true) (h2 : strLe b a = true) :
    a = b :=
  String.ext (lexLe_antisymm a.data b.data h1 h2)

theorem strLt_iff (a b : String) : strLt a b = true ↔ strLe a b = true ∧ a ≠ b := by
  unfold strLt strLe
  rw [lexLt_iff a.data b.data]
  constructor
  · rintro ⟨h1, h2⟩
    refine ⟨h1, fun he => h2 (by rw [he])⟩
  · rintro ⟨h1, h2⟩
    exact ⟨h1, fun he => h2 (String.ext he)⟩

/-! ### Lemmas about `sortStrings` -/

theorem sortInsert_perm (x : String) : ∀ l : List String,
    (sortInsert x l).Perm (x :: l)
  | [] => List.Perm.refl _
  | y :: ys => by
    simp only [sortInsert]
    split
    · exact List.Perm.refl _
    · exact ((sortInsert_perm x ys).cons y).trans (List.Perm.swap x y ys)

theorem sortStrings_perm : ∀ l : List String, (sortStrings l).Perm l
  | [] => List.Perm.refl _
  | x :: xs => (sortInsert_perm x (sortStrings xs)).trans ((sortStrings_perm xs).cons x)

theorem sortInsert_sorted (x : String) : ∀ l : List String,
    l.Pairwise (fun a b => strLe a b = true) →
    (sortInsert x l).Pairwise (fun a b => strLe a b = true)
  | [], _ => by simp [sortInsert]
  | y :: ys, h => by
    simp only [sortInsert]
    rcases List.pairwise_cons.mp h with ⟨hy, hys⟩
    split
    · rename_i hxy
      refine List.pairwise_cons.mpr ⟨?_, h⟩
      intro z hz
      rcases hz with _ | hz
      · exact hxy
      · exact strLe_trans hxy (hy z (by assumption))
    · rename_i hxy
      have hyx : strLe y x = true := (strLe_total x y).resolve_left (by simpa using hxy)
      refine List.pairwise_cons.mpr ⟨?_, sortInsert_sorted x ys hys⟩
      intro z hz
      have := (sortInsert_perm x ys).mem_iff.mp hz
      rcases List.mem_cons.mp this with hzx | hzy
      · subst hzx; exact hyx
      · exact hy z hzy

theorem sortStrings_sorted : ∀ l : List String,
    (sortStrings l).Pairwise (fun a b => strLe a b = true)
  | [] => List.Pairwise.nil
  | x :: xs => sortInsert_sorted x (sortStrings xs) (sortStrings_sorted xs)

theorem sortStrings_eq_of_perm {l1 l2 : List String} (h : l1.Perm l2) :
    sortStrings l1 = sortStrings l2 := by
  have hp : (sortStrings l1).Perm (sortStrings l2) :=
    (sortStrings_perm l1).trans (h.trans (sortStrings_perm l2).symm)
  exact @List.eq_of_perm_of_sorted String (fun a b => strLe a b = true)
    ⟨fun a b h1 h2 => strLe_antisymm h1 h2⟩ _ _ hp
    (sortStrings_sorted l1) (sortStrings_sorted l2)

/-! ### Structural lemmas about the migrate loop -/

/-- Master structural invariant of the loop: the trace extends the
accumulator by executed units that were pending with a script, rows are
only appended, every appended row is a finished record for an executed
unit, the count counts appended rows, and a reported failure names an
executed unit. -/
theorem runUnits_struct (f : String → Bool) (u : Nat → String) (now : Nat)
    (root : List Entry) (A : List String) :
    ∀ (l : List String) (s : Store) (c : Nat) (tr : List String),
    ∃ t2 new,
      (runUnits f u now root A l s c tr).execTrace = tr ++ t2 ∧
      (runUnits f u now root A l s c tr).store.rows = s.rows ++ new ∧
      (∀ x ∈ t2, x ∈ l ∧ x ∉ A ∧ (sqlFileOf root x).isSome = true) ∧
      (∀ r ∈ new, r.migration_name ∈ t2 ∧ r.finished_at = some now) ∧
      (runUnits f u now root A l s c tr).appliedCount = c + new.length ∧
      (∀ p : String × String, (runUnits f u now root A l s c tr).failed = some p → p.1 ∈ t2)
  | [], s, c, tr => by
    refine ⟨[], [], by simp [runUnits], by simp [runUnits], by simp, by simp,
      by simp [runUnits], ?_⟩
    intro p hp
    simp [runUnits] at hp
  | d :: rest, s, c, tr => by
    by_cases hA : d ∈ A
    · have hrw : runUnits f u now root A (d :: rest) s c tr =
          runUnits f u now root A rest s c tr := by
        simp only [runUnits, if_pos hA]
      rcases runUnits_struct f u now root A rest s c tr with
        ⟨t2, new, h1, h2, h3, h4, h5, h6⟩
      refine ⟨t2, new, by rw [hrw, h1], by rw [hrw, h2], ?_, h4,
        by rw [hrw, h5], by rw [hrw]; exact h6⟩
      intro x hx
      rcases h3 x hx with ⟨hl, hna, hsq⟩
      exact ⟨List.mem_cons_of_mem d hl, hna, hsq⟩
    · rcases hsql : sqlFileOf root d with _ | sql
      · have hrw : runUnits f u now root A (d :: rest) s c tr =
            runUnits f u now root A rest s c tr := by
          simp only [runUnits, if_neg hA, hsql]
        rcases runUnits_struct f u now root A rest s c tr with
          ⟨t2, new, h1, h2, h3, h4, h5, h6⟩
        refine ⟨t2, new, by rw [hrw, h1], by rw [hrw, h2], ?_, h4,
          by rw [hrw, h5], by rw [hrw]; exact h6⟩
        intro x hx
        rcases h3 x hx with ⟨hl, hna, hsq⟩
        exact ⟨List.mem_cons_of_mem d hl, hna, hsq⟩
      · have hdprop : d ∈ d :: rest ∧ d ∉ A ∧ (sqlFileOf root d).isSome = true :=
          ⟨List.mem_cons_self _ _, hA, by simp [hsql]⟩
        by_cases hfail : f sql = true
        · have hrw : runUnits f u now root A (d :: rest) s c tr =
              ⟨s, c, tr ++ [d], some (d, "script execution failed")⟩ := by
            simp only [runUnits, if_neg hA, hsql, if_pos hfail]
          refine ⟨[d], [], by rw [hrw], by rw [hrw]; simp, ?_, by simp,
            by rw [hrw]; simp, ?_⟩
          · intro x hx
            rcases List.mem_singleton.mp hx with rfl
            exact hdprop
          · intro p hp
            rw [hrw] at hp
            simp only at hp
            cases hp
            simp
        · by_cases hdup : s.rows.any (fun r => decide (r.migration_name = d)) = true
          · have hrw : runUnits f u now root A (d :: rest) s c tr =
                ⟨⟨s.rows, s.schema ++ [sql]⟩, c, tr ++ [d],
                  some (d, "completion-record insert failed")⟩ := by
              simp only [runUnits, if_neg hA, hsql, if_neg hfail, if_pos hdup]
            refine ⟨[d], [], by rw [hrw], by rw [hrw]; simp, ?_, by simp,
              by rw [hrw]; simp, ?_⟩
            · intro x hx
              rcases List.mem_singleton.mp hx with rfl
              exact hdprop
            · intro p hp
              rw [hrw] at hp
              simp only at hp
              cases hp
              simp
          · have hrw : runUnits f u now root A (d :: rest) s c tr =
                runUnits f u now root A rest
                  ⟨s.rows ++ [⟨u c, d, some now, now, 1, none⟩], s.schema ++ [sql]⟩
                  (c + 1) (tr ++ [d]) := by
              simp only [runUnits, if_neg hA, hsql, if_neg hfail, if_neg hdup]
            rcases runUnits_struct f u now root A rest
              ⟨s.rows ++ [⟨u c, d, some now, now, 1, none⟩], s.schema ++ [sql]⟩
              (c + 1) (tr ++ [d]) with ⟨t2, new, h1, h2, h3, h4, h5, h6⟩
            refine ⟨d :: t2, ⟨u c, d, some now, now, 1, none⟩ :: new,
              ?_, ?_, ?_, ?_, ?_, ?_⟩
            · rw [hrw, h1]; simp
            · rw [hrw, h2]; simp
            · intro x hx
              rcases List.mem_cons.mp hx with hxd | hx2
              · subst hxd
                exact hdprop
              · rcases h3 x hx2 with ⟨hl, hna, hsq⟩
                exact ⟨List.mem_cons_of_mem d hl, hna, hsq⟩
            · intro r hr
              rcases List.mem_cons.mp hr with hrd | hr2
              · subst hrd
                exact ⟨List.mem_cons_self _ _, rfl⟩
              · rcases h4 r hr2 with ⟨hn, hf⟩
                exact ⟨List.mem_cons_of_mem d hn, hf⟩
            · rw [hrw, h5]; simp [Nat.add_comm, Nat.add_assoc, Nat.add_left_comm]
            · intro p hp
              rw [hrw] at hp
              exact List.mem_cons_of_mem d (h6 p hp)

/-- If every unit in the list is already applied or has no script, the
loop does nothing: the store, count and trace come back unchanged and
the run succeeds. -/
theorem runUnits_skip_all (f : String → Bool) (u : Nat → String) (now : Nat)
    (root : List Entry) (A : List String) :
    ∀ (l : List String) (s : Store) (c : Nat) (tr : List String),
    (∀ d ∈ l, d ∈ A ∨ sqlFileOf root d = none) →
    runUnits f u now root A l s c tr = ⟨s, c, tr, none⟩
  | [], s, c, tr, _ => rfl
  | d :: rest, s, c, tr, h => by
    have hrest : ∀ x ∈ rest, x ∈ A ∨ sqlFileOf root x = none :=
      fun x hx => h x (List.mem_cons_of_mem d hx)
    rcases h d (List.mem_cons_self d rest) with hA | hN
    · simp only [runUnits, if_pos hA]
      exact runUnits_skip_all f u now root A rest s c tr hrest
    · by_cases hA : d ∈ A
      · simp only [runUnits, if_pos hA]
        exact runUnits_skip_all f u now root A rest s c tr hrest
      · simp only [runUnits, if_neg hA, hN]
        exact runUnits_skip_all f u now root A rest s c tr hrest

theorem mem_appliedNames {s : Store} {d : String} :
    d ∈ appliedNames s ↔ ∃ r ∈ s.rows, r.migration_name = d ∧ r.finished_at.isSome = true := by
  simp only [appliedNames, List.mem_map, List.mem_filter]
  constructor
  · rintro ⟨r, ⟨hr, hf⟩, rfl⟩
    exact ⟨r, hr, rfl, hf⟩
  · rintro ⟨r, hr, rfl, hf⟩
    exact ⟨r, ⟨hr, hf⟩, rfl⟩

theorem pendingOf_cons_skip {root : List Entry} {A : List String} {d : String}
    (h : d ∈ A ∨ sqlFileOf root d = none) (rest : List String) :
    pendingOf root A (d :: rest) = pendingOf root A rest := by
  rcases h with h | h <;> simp [pendingOf, h]

theorem pendingOf_cons_pending (root : List Entry) {A : List String} {d : String}
    (hA : d ∉ A) (hs : (sqlFileOf root d).isSome = true) (rest : List String) :
    pendingOf root A (d :: rest) = d :: pendingOf root A rest := by
  simp [pendingOf, hA, hs]

/-- A successful run executed exactly the pending-with-script units of
its list, in list order, and inserted one finished record per executed
unit, counting them. -/
theorem runUnits_success (f : String → Bool) (u : Nat → String) (now : Nat)
    (root : List Entry) (A : List String) :
    ∀ (l : List String) (s : Store) (c : Nat) (tr : List String),
    (runUnits f u now root A l s c tr).failed = none →
    ∃ new,
      (runUnits f u now root A l s c tr).execTrace = tr ++ pendingOf root A l ∧
      (runUnits f u now root A l s c tr).store.rows = s.rows ++ new ∧
      new.map (fun r => r.migration_name) = pendingOf root A l ∧
      (∀ r ∈ new, r.finished_at = some now) ∧
      (runUnits f u now root A l s c tr).appliedCount = c + new.length
  | [], s, c, tr, _ => by
    refine ⟨[], ?_, ?_, ?_, ?_, ?_⟩ <;> simp [runUnits, pendingOf]
  | d :: rest, s, c, tr, hok => by
    by_cases hA : d ∈ A
    · have hrw : runUnits f u now root A (d :: rest) s c tr =
          runUnits f u now root A rest s c tr := by
        simp only [runUnits, if_pos hA]
      rw [hrw] at hok
      rcases runUnits_success f u now root A rest s c tr hok with
        ⟨new, h1, h2, h3, h4, h5⟩
      rw [pendingOf_cons_skip (Or.inl hA)]
      exact ⟨new, by rw [hrw, h1], by rw [hrw, h2], h3, h4, by rw [hrw, h5]⟩
    · rcases hsql : sqlFileOf root d with _ | sql
      · have hrw : runUnits f u now root A (d :: rest) s c tr =
            runUnits f u now root A rest s c tr := by
          simp only [runUnits, if_neg hA, hsql]
        rw [hrw] at hok
        rcases runUnits_success f u now root A rest s c tr hok with
          ⟨new, h1, h2, h3, h4, h5⟩
        rw [pendingOf_cons_skip (Or.inr hsql)]
        exact ⟨new, by rw [hrw, h1], by rw [hrw, h2], h3, h4, by rw [hrw, h5]⟩
      · have hpend := pendingOf_cons_pending root hA (by simp [hsql]) rest
        by_cases hfail : f sql = true
        · have hrw : runUnits f u now root A (d :: rest) s c tr =
              ⟨s, c, tr ++ [d], some (d, "script execution failed")⟩ := by
            simp only [runUnits, if_neg hA, hsql, if_pos hfail]
          rw [hrw] at hok
          simp at hok
        · by_cases hdup : s.rows.any (fun r => decide (r.migration_name = d)) = true
          · have hrw : runUnits f u now root A (d :: rest) s c tr =
                ⟨⟨s.rows, s.schema ++ [sql]⟩, c, tr ++ [d],
                  some (d, "completion-record insert failed")⟩ := by
              simp only [runUnits, if_neg hA, hsql, if_neg hfail, if_pos hdup]
            rw [hrw] at hok
            simp at hok
          · have hrw : runUnits f u now root A (d :: rest) s c tr =
                runUnits f u now root A rest
                  ⟨s.rows ++ [⟨u c, d, some now, now, 1, none⟩], s.schema ++ [sql]⟩
                  (c + 1) (tr ++ [d]) := by
              simp only [runUnits, if_neg hA, hsql, if_neg hfail, if_neg hdup]
            rw [hrw] at hok
            rcases runUnits_success f u now root A rest
              ⟨s.rows ++ [⟨u c, d, some now, now, 1, none⟩], s.schema ++ [sql]⟩
              (c + 1) (tr ++ [d]) hok with ⟨new, h1, h2, h3, h4, h5⟩
            rw [hpend]
            refine ⟨⟨u c, d, some now, now, 1, none⟩ :: new, ?_, ?_, ?_, ?_, ?_⟩
            · rw [hrw, h1]; simp
            · rw [hrw, h2]; simp
            · simp [h3]
            · intro r hr
              rcases List.mem_cons.mp hr with hrd | hr2
              · subst hrd; rfl
              · exact h4 r hr2
            · rw [hrw, h5]; simp [Nat.add_comm, Nat.add_assoc, Nat.add_left_comm]

/-- A failed run: the list splits around the failing unit `d`; the units
before `d` that were pending with a script were executed and recorded,
`d` itself was executed but got no record, and nothing after `d` was
touched. -/
theorem runUnits_failure (f : String → Bool) (u : Nat → String) (now : Nat)
    (root : List Entry) (A : List String) :
    ∀ (l : List String) (s : Store) (c : Nat) (tr : List String) (d : String)
      (cause : String),
    (runUnits f u now root A l s c tr).failed = some (d, cause) →
    ∃ pre post new,
      l = pre ++ d :: post ∧
      (runUnits f u now root A l s c tr).execTrace = tr ++ pendingOf root A pre ++ [d] ∧
      d ∉ A ∧ (sqlFileOf root d).isSome = true ∧
      (runUnits f u now root A l s c tr).store.rows = s.rows ++ new ∧
      new.map (fun r => r.migration_name) = pendingOf root A pre ∧
      (∀ r ∈ new, r.finished_at = some now) ∧
      (runUnits f u now root A l s c tr).appliedCount = c + new.length
  | [], s, c, tr, d, cause => by
    intro h
    simp [runUnits] at h
  | d' :: rest, s, c, tr, d, cause => by
    intro h
    by_cases hA : d' ∈ A
    · have hrw : runUnits f u now root A (d' :: rest) s c tr =
          runUnits f u now root A rest s c tr := by
        simp only [runUnits, if_pos hA]
      rw [hrw] at h
      rcases runUnits_failure f u now root A rest s c tr d cause h with
        ⟨pre, post, new, h0, h1, h2, h3, h4, h5, h6, h7⟩
      refine ⟨d' :: pre, post, new, by rw [h0]; rfl, ?_, h2, h3, ?_, ?_, h6, ?_⟩
      · rw [hrw, h1, pendingOf_cons_skip (Or.inl hA)]
      · rw [hrw, h4]
      · rw [pendingOf_cons_skip (Or.inl hA)]; exact h5
      · rw [hrw, h7]
    · rcases hsql : sqlFileOf root d' with _ | sql
      · have hrw : runUnits f u now root A (d' :: rest) s c tr =
            runUnits f u now root A rest s c tr := by
          simp only [runUnits, if_neg hA, hsql]
        rw [hrw] at h
        rcases runUnits_failure f u now root A rest s c tr d cause h with
          ⟨pre, post, new, h0, h1, h2, h3, h4, h5, h6, h7⟩
        refine ⟨d' :: pre, post, new, by rw [h0]; rfl, ?_, h2, h3, ?_, ?_, h6, ?_⟩
        · rw [hrw, h1, pendingOf_cons_skip (Or.inr hsql)]
        · rw [hrw, h4]
        · rw [pendingOf_cons_skip (Or.inr hsql)]; exact h5
        · rw [hrw, h7]
      · by_cases hfail : f sql = true
        · have hrw : runUnits f u now root A (d' :: rest) s c tr =
              ⟨s, c, tr ++ [d'], some (d', "script execution failed")⟩ := by
            simp only [runUnits, if_neg hA, hsql, if_pos hfail]
          rw [hrw] at h
          simp only at h
          rcases Option.some.inj h with h
          rcases Prod.mk.injEq .. ▸ h with ⟨rfl, rfl⟩
          refine ⟨[], rest, [], rfl, ?_, hA, by simp [hsql], ?_, ?_, ?_, ?_⟩ <;>
            first
              | (rw [hrw]; simp [pendingOf])
              | simp [pendingOf]
        · by_cases hdup : s.rows.any (fun r => decide (r.migration_name = d')) = true
          · have hrw : runUnits f u now root A (d' :: rest) s c tr =
                ⟨⟨s.rows, s.schema ++ [sql]⟩, c, tr ++ [d'],
                  some (d', "completion-record insert failed")⟩ := by
              simp only [runUnits, if_neg hA, hsql, if_neg hfail, if_pos hdup]
            rw [hrw] at h
            simp only at h
            rcases Option.some.inj h with h
            rcases Prod.mk.injEq .. ▸ h with ⟨rfl, rfl⟩
            refine ⟨[], rest, [], rfl, ?_, hA, by simp [hsql], ?_, ?_, ?_, ?_⟩ <;>
              first
                | (rw [hrw]; simp [pendingOf])
                | simp [pendingOf]
          · have hrw : runUnits f u now root A (d' :: rest) s c tr =
                runUnits f u now root A rest
                  ⟨s.rows ++ [⟨u c, d', some now, now, 1, none⟩], s.schema ++ [sql]⟩
                  (c + 1) (tr ++ [d']) := by
              simp only [runUnits, if_neg hA, hsql, if_neg hfail, if_neg hdup]
            rw [hrw] at h
            rcases runUnits_failure f u now root A rest
              ⟨s.rows ++ [⟨u c, d', some now, now, 1, none⟩], s.schema ++ [sql]⟩
              (c + 1) (tr ++ [d']) d cause h with
              ⟨pre, post, new, h0, h1, h2, h3, h4, h5, h6, h7⟩
            have hpend := pendingOf_cons_pending root hA (by simp [hsql]) pre
            refine ⟨d' :: pre, post, ⟨u c, d', some now, now, 1, none⟩ :: new,
              by rw [h0]; rfl, ?_, h2, h3, ?_, ?_, ?_, ?_⟩
            · rw [hrw, h1, hpend]; simp
            · rw [hrw, h4]; simp
            · rw [hpend]; simp [h5]
            · intro r hr
              rcases List.mem_cons.mp hr with hrd | hr2
              · subst hrd; rfl
              · exact h6 r hr2
            · rw [hrw, h7]; simp [Nat.add_comm, Nat.add_assoc, Nat.add_left_comm]

/-- Units at the front of the list that are already applied or lack a
script are skipped without any effect. -/
theorem runUnits_skip_front (f : String → Bool) (u : Nat → String) (now : Nat)
    (root : List Entry) (A : List String) :
    ∀ (pre l2 : List String) (s : Store) (c : Nat) (tr : List String),
    (∀ x ∈ pre, x ∈ A ∨ sqlFileOf root x = none) →
    runUnits f u now root A (pre ++ l2) s c tr = runUnits f u now root A l2 s c tr
  | [], l2, s, c, tr, _ => rfl
  | d :: pre, l2, s, c, tr, h => by
    have hrest : ∀ x ∈ pre, x ∈ A ∨ sqlFileOf root x = none :=
      fun x hx => h x (List.mem_cons_of_mem d hx)
    rcases h d (List.mem_cons_self d pre) with hA | hN
    · simp only [List.cons_append, runUnits, if_pos hA]
      exact runUnits_skip_front f u now root A pre l2 s c tr hrest
    · by_cases hA : d ∈ A
      · simp only [List.cons_append, runUnits, if_pos hA]
        exact runUnits_skip_front f u now root A pre l2 s c tr hrest
      · simp only [List.cons_append, runUnits, if_neg hA, hN]
        exact runUnits_skip_front f u now root A pre l2 s c tr hrest

theorem mem_pendingOf {root : List Entry} {A l : List String} {x : String} :
    x ∈ pendingOf root A l ↔ x ∈ l ∧ x ∉ A ∧ (sqlFileOf root x).isSome = true := by
  simp [pendingOf, List.mem_filter, and_assoc]

theorem mem_listDirs {root : List Entry} {x : String} :
    x ∈ listDirs root ↔ x ∈ (root.filter (fun e => e.isDir)).map (fun e => e.name) :=
  (sortStrings_perm _).mem_iff

/-- If the head of the remaining list is pending and has a script, its
script is executed (it enters the trace), whatever happens afterwards. -/
theorem runUnits_head_executed (f : String → Bool) (u : Nat → String) (now : Nat)
    (root : List Entry) (A : List String) (d : String) (rest : List String)
    (s : Store) (c : Nat) (tr : List String)
    (hA : d ∉ A) (hsql : (sqlFileOf root d).isSome = true) :
    d ∈ (runUnits f u now root A (d :: rest) s c tr).execTrace := by
  rcases hs : sqlFileOf root d with _ | sql
  · rw [hs] at hsql; simp at hsql
  · by_cases hfail : f sql = true
    · have hrw : runUnits f u now root A (d :: rest) s c tr =
          ⟨s, c, tr ++ [d], some (d, "script execution failed")⟩ := by
        simp only [runUnits, if_neg hA, hs, if_pos hfail]
      rw [hrw]; simp
    · by_cases hdup : s.rows.any (fun r => decide (r.migration_name = d)) = true
      · have hrw : runUnits f u now root A (d :: rest) s c tr =
            ⟨⟨s.rows, s.schema ++ [sql]⟩, c, tr ++ [d],
              some (d, "completion-record insert failed")⟩ := by
          simp only [runUnits, if_neg hA, hs, if_neg hfail, if_pos hdup]
        rw [hrw]; simp
      · have hrw : runUnits f u now root A (d :: rest) s c tr =
            runUnits f u now root A rest
              ⟨s.rows ++ [⟨u c, d, some now, now, 1, none⟩], s.schema ++ [sql]⟩
              (c + 1) (tr ++ [d]) := by
          simp only [runUnits, if_neg hA, hs, if_neg hfail, if_neg hdup]
        rw [hrw]
        rcases runUnits_struct f u now root A rest
          ⟨s.rows ++ [⟨u c, d, some now, now, 1, none⟩], s.schema ++ [sql]⟩
          (c + 1) (tr ++ [d]) with ⟨t2, new, h1, _, _, _, _, _⟩
        rw [h1]
        simp

/-! ### Claim theorems -/

/-- C1: after a `migrate` run that finishes without failure, running
`migrate` again against the resulting store and the same root executes
no migration scripts (empty exec trace), changes nothing in the store,
reports zero units applied, and succeeds: every unit with a finished
tracking record is skipped without re-executing its script. -/
theorem migrate_second_run_applies_nothing (f : String → Bool) (u : Nat → String)
    (now : Nat) (root : List Entry) (s : Store)
    (hok : (migrateRun f u now root s).failed = none)
    (f' : String → Bool) (u' : Nat → String) (now' : Nat) :
    migrateRun f' u' now' root (migrateRun f u now root s).store =
      ⟨(migrateRun f u now root s).store, 0, [], none⟩ := by
  rcases runUnits_success f u now root (appliedNames s) (listDirs root) s 0 [] hok with
    ⟨new, _, h2, h3, h4, _⟩
  have hm : migrateRun f u now root s =
      runUnits f u now root (appliedNames s) (listDirs root) s 0 [] := rfl
  have hall : ∀ d ∈ listDirs root,
      d ∈ appliedNames (migrateRun f u now root s).store ∨ sqlFileOf root d = none := by
    intro d hd
    rcases hsq : sqlFileOf root d with _ | sql
    · exact Or.inr rfl
    · left
      by_cases hA : d ∈ appliedNames s
      · rcases mem_appliedNames.mp hA with ⟨r, hr, hn, hf⟩
        exact mem_appliedNames.mpr
          ⟨r, by rw [hm, h2]; exact List.mem_append_left _ hr, hn, hf⟩
      · have hdp : d ∈ pendingOf root (appliedNames s) (listDirs root) :=
          mem_pendingOf.mpr ⟨hd, hA, by simp [hsq]⟩
        rw [← h3] at hdp
        rcases List.mem_map.mp hdp with ⟨r, hr, hn⟩
        exact mem_appliedNames.mpr
          ⟨r, by rw [hm, h2]; exact List.mem_append_right _ hr, hn, by rw [(h4 r hr)]; rfl⟩
  exact runUnits_skip_all f' u' now' root _ (listDirs root) _ 0 [] hall

/-- C1 witness: a concrete successful run followed by a second run. -/
theorem migrate_second_run_applies_nothing_witness :
    (migrateRun (fun _ => false) (fun _ => "id0") 5
        [⟨"0001_init", true, true, "CREATE TABLE a;"⟩] ⟨[], []⟩).failed = none ∧
    migrateRun (fun _ => true) (fun _ => "id1") 7 [⟨"0001_init", true, true, "CREATE TABLE a;"⟩]
        (migrateRun (fun _ => false) (fun _ => "id0") 5
          [⟨"0001_init", true, true, "CREATE TABLE a;"⟩] ⟨[], []⟩).store =
      ⟨(migrateRun (fun _ => false) (fun _ => "id0") 5
          [⟨"0001_init", true, true, "CREATE TABLE a;"⟩] ⟨[], []⟩).store, 0, [], none⟩ :=
  ⟨by decide,
    migrate_second_run_applies_nothing (fun _ => false) (fun _ => "id0") 5
      [⟨"0001_init", true, true, "CREATE TABLE a;"⟩] ⟨[], []⟩ (by decide)
      (fun _ => true) (fun _ => "id1") 7⟩

/-- C2: on a successful run, the executed units are exactly the
not-yet-applied units with a script, filtered from the lexically sorted
directory list using the applied set of the initial store (computed once
at the start); the execution order is strictly ascending in the
byte-wise lexical order; and the sorted directory list does not depend
on the order in which the filesystem lists the root. -/
theorem migrate_order_lexical (f : String → Bool) (u : Nat → String) (now : Nat)
    (root : List Entry) (s : Store)
    (hnd : ((root.filter (fun e => e.isDir)).map (fun e => e.name)).Nodup)
    (hok : (migrateRun f u now root s).failed = none) :
    (migrateRun f u now root s).execTrace =
        pendingOf root (appliedNames s) (listDirs root) ∧
    (migrateRun f u now root s).execTrace.Pairwise (fun a b => strLt a b = true) ∧
    ∀ root' : List Entry, root'.Perm root → listDirs root' = listDirs root := by
  rcases runUnits_success f u now root (appliedNames s) (listDirs root) s 0 [] hok with
    ⟨new, h1, _, _, _, _⟩
  have htr : (migrateRun f u now root s).execTrace =
      pendingOf root (appliedNames s) (listDirs root) := by
    rw [show migrateRun f u now root s =
      runUnits f u now root (appliedNames s) (listDirs root) s 0 [] from rfl, h1]
    rfl
  refine ⟨htr, ?_, ?_⟩
  · have hsorted : (listDirs root).Pairwise (fun a b => strLe a b = true) :=
      sortStrings_sorted _
    have hnodup : (listDirs root).Nodup := (sortStrings_perm _).nodup_iff.mpr hnd
    have hstrict : (listDirs root).Pairwise (fun a b => strLt a b = true) :=
      (hsorted.and hnodup).imp (fun h => (strLt_iff _ _).mpr ⟨h.1, h.2⟩)
    rw [htr]
    exact List.Pairwise.sublist (List.filter_sublist _) hstrict
  · intro root' hperm
    exact sortStrings_eq_of_perm (((hperm.filter _).map _))

/-- C2 witness: three directories listed out of order execute in lexical
order. -/
theorem migrate_order_lexical_witness :
    (migrateRun (fun _ => false) (fun _ => "id") 5
        [⟨"0010_later", true, true, "C"⟩, ⟨"0001_init", true, true, "A"⟩,
          ⟨"0002_add_index", true, true, "B"⟩] ⟨[], []⟩).execTrace =
      pendingOf [⟨"0010_later", true, true, "C"⟩, ⟨"0001_init", true, true, "A"⟩,
          ⟨"0002_add_index", true, true, "B"⟩] (appliedNames ⟨[], []⟩)
        (listDirs [⟨"0010_later", true, true, "C"⟩, ⟨"0001_init", true, true, "A"⟩,
          ⟨"0002_add_index", true, true, "B"⟩]) ∧
    (migrateRun (fun _ => false) (fun _ => "id") 5
        [⟨"0010_later", true, true, "C"⟩, ⟨"0001_init", true, true, "A"⟩,
          ⟨"0002_add_index", true, true, "B"⟩] ⟨[], []⟩).execTrace.Pairwise
      (fun a b => strLt a b = true) ∧
    ∀ root' : List Entry,
      root'.Perm [⟨"0010_later", true, true, "C"⟩, ⟨"0001_init", true, true, "A"⟩,
          ⟨"0002_add_index", true, true, "B"⟩] →
      listDirs root' = listDirs [⟨"0010_later", true, true, "C"⟩,
        ⟨"0001_init", true, true, "A"⟩, ⟨"0002_add_index", true, true, "B"⟩] :=
  migrate_order_lexical (fun _ => false) (fun _ => "id") 5
    [⟨"0010_later", true, true, "C"⟩, ⟨"0001_init", true, true, "A"⟩,
      ⟨"0002_add_index", true, true, "B"⟩] ⟨[], []⟩ (by decide) (by decide)

/-- C3: when a unit's script execution or completion-record insert
fails, the run stops at once: the directory list splits as
`pre ++ d :: post`, the trace is exactly the pending units of `pre`
followed by `d` (no unit of `post` was attempted), earlier units'
records are kept (rows only appended), the failing unit `d` is left
with no finished record, and the process exit status is 1, with the
failure identifying unit and cause. -/
theorem migrate_stops_on_first_failure (f : String → Bool) (u : Nat → String)
    (now : Nat) (root : List Entry) (s : Store) (d cause : String)
    (hnd : ((root.filter (fun e => e.isDir)).map (fun e => e.name)).Nodup)
    (hfail : (migrateRun f u now root s).failed = some (d, cause)) :
    runExit (migrateRun f u now root s) = 1 ∧
    ∃ pre post new,
      listDirs root = pre ++ d :: post ∧
      (migrateRun f u now root s).execTrace =
        pendingOf root (appliedNames s) pre ++ [d] ∧
      (∀ x ∈ post, x ∉ (migrateRun f u now root s).execTrace) ∧
      (migrateRun f u now root s).store.rows = s.rows ++ new ∧
      new.map (fun r => r.migration_name) = pendingOf root (appliedNames s) pre ∧
      d ∉ appliedNames (migrateRun f u now root s).store := by
  have hm : migrateRun f u now root s =
      runUnits f u now root (appliedNames s) (listDirs root) s 0 [] := rfl
  rcases runUnits_failure f u now root (appliedNames s) (listDirs root) s 0 [] d cause
    hfail with ⟨pre, post, new, h0, h1, h2, _, h4, h5, h6, _⟩
  have hnodup : (listDirs root).Nodup := (sortStrings_perm _).nodup_iff.mpr hnd
  rw [h0] at hnodup
  rcases List.nodup_append.mp hnodup with ⟨hpre, hdpost, hdisj⟩
  have hd_pre : d ∉ pre := fun hd => hdisj hd (List.mem_cons_self _ _)
  have hd_post : d ∉ post := (List.nodup_cons.mp hdpost).1
  refine ⟨by simp [runExit, hfail], pre, post, new, h0, by rw [hm, h1]; rfl, ?_,
    by rw [hm, h4], h5, ?_⟩
  · intro x hx hmem
    rw [hm, h1] at hmem
    simp only [List.nil_append, List.mem_append, List.mem_singleton] at hmem
    rcases hmem with hmem | rfl
    · have : x ∈ pre := (mem_pendingOf.mp hmem).1
      exact hdisj this (List.mem_cons_of_mem _ hx)
    · exact hd_post hx
  · intro hd
    rcases mem_appliedNames.mp hd with ⟨r, hr, hn, hf⟩
    rw [hm, h4] at hr
    rcases List.mem_append.mp hr with hr | hr
    · exact h2 (mem_appliedNames.mpr ⟨r, hr, hn, hf⟩)
    · have : r.migration_name ∈ pendingOf root (appliedNames s) pre := by
        rw [← h5]
        exact List.mem_map_of_mem _ hr
      rw [hn] at this
      exact hd_pre (mem_pendingOf.mp this).1

/-- C3 witness: the second of three units fails; the first is recorded,
the failing one is not, the third is never attempted. -/
theorem migrate_stops_on_first_failure_witness :
    runExit (migrateRun (fun sql => decide (sql = "B")) (fun _ => "id") 5
        [⟨"0001_init", true, true, "A"⟩, ⟨"0002_add_index", true, true, "B"⟩,
          ⟨"0010_later", true, true, "C"⟩] ⟨[], []⟩) = 1 ∧
    ∃ pre post new,
      listDirs [⟨"0001_init", true, true, "A"⟩, ⟨"0002_add_index", true, true, "B"⟩,
          ⟨"0010_later", true, true, "C"⟩] = pre ++ "0002_add_index" :: post ∧
      (migrateRun (fun sql => decide (sql = "B")) (fun _ => "id") 5
          [⟨"0001_init", true, true, "A"⟩, ⟨"0002_add_index", true, true, "B"⟩,
            ⟨"0010_later", true, true, "C"⟩] ⟨[], []⟩).execTrace =
        pendingOf [⟨"0001_init", true, true, "A"⟩, ⟨"0002_add_index", true, true, "B"⟩,
            ⟨"0010_later", true, true, "C"⟩] (appliedNames ⟨[], []⟩) pre ++
          ["0002_add_index"] ∧
      (∀ x ∈ post, x ∉ (migrateRun (fun sql => decide (sql = "B")) (fun _ => "id") 5
          [⟨"0001_init", true, true, "A"⟩, ⟨"0002_add_index", true, true, "B"⟩,
            ⟨"0010_later", true, true, "C"⟩] ⟨[], []⟩).execTrace) ∧
      (migrateRun (fun sql => decide (sql = "B")) (fun _ => "id") 5
          [⟨"0001_init", true, true, "A"⟩, ⟨"0002_add_index", true, true, "B"⟩,
            ⟨"0010_later", true, true, "C"⟩] ⟨[], []⟩).store.rows =
        (⟨[], []⟩ : Store).rows ++ new ∧
      new.map (fun r => r.migration_name) =
        pendingOf [⟨"0001_init", true, true, "A"⟩, ⟨"0002_add_index", true, true, "B"⟩,
            ⟨"0010_later", true, true, "C"⟩] (appliedNames ⟨[], []⟩) pre ∧
      "0002_add_index" ∉ appliedNames (migrateRun (fun sql => decide (sql = "B"))
          (fun _ => "id") 5 [⟨"0001_init", true, true, "A"⟩,
            ⟨"0002_add_index", true, true, "B"⟩,
            ⟨"0010_later", true, true, "C"⟩] ⟨[], []⟩).store :=
  (migrate_stops_on_first_failure (fun sql => decide (sql = "B")) (fun _ => "id") 5
    [⟨"0001_init", true, true, "A"⟩, ⟨"0002_add_index", true, true, "B"⟩,
      ⟨"0010_later", true, true, "C"⟩] ⟨[], []⟩ "0002_add_index" "script execution failed"
    (by decide) (by decide)).imp_right id

/-- C4: the applied set contains exactly the `migration_name` values of
rows with `finished_at` set; a unit whose rows are all unfinished is not
in the applied set, so when the run reaches it (everything before it in
the sorted list being skipped) its script is re-executed. -/
theorem applied_set_is_finished_rows (s : Store) (f : String → Bool)
    (u : Nat → String) (now : Nat) (root : List Entry) (pre post : List String)
    (d : String) :
    (∀ x, x ∈ appliedNames s ↔
      ∃ r ∈ s.rows, r.migration_name = x ∧ r.finished_at.isSome = true) ∧
    ((∀ r ∈ s.rows, r.migration_name = d → r.finished_at = none) →
      listDirs root = pre ++ d :: post →
      (∀ x ∈ pre, x ∈ appliedNames s ∨ sqlFileOf root x = none) →
      (sqlFileOf root d).isSome = true →
      d ∈ (migrateRun f u now root s).execTrace) := by
  refine ⟨fun x => mem_appliedNames, ?_⟩
  intro hunf hsplit hpre hsql
  have hA : d ∉ appliedNames s := by
    intro hd
    rcases mem_appliedNames.mp hd with ⟨r, hr, hn, hf⟩
    rw [hunf r hr hn] at hf
    simp at hf
  have hm : migrateRun f u now root s =
      runUnits f u now root (appliedNames s) (listDirs root) s 0 [] := rfl
  rw [hm, hsplit, runUnits_skip_front f u now root (appliedNames s) pre (d :: post) s 0 [] hpre]
  exact runUnits_head_executed f u now root (appliedNames s) d post s 0 [] hA hsql

/-- C4 witness: a store holding only an unfinished record for
`0001_init` leads to the unit being re-executed. -/
theorem applied_set_is_finished_rows_witness :
    "0001_init" ∈ (migrateRun (fun _ => false) (fun _ => "id") 5
      [⟨"0001_init", true, true, "A"⟩]
      ⟨[⟨"r1", "0001_init", none, 3, 0, none⟩], []⟩).execTrace :=
  (applied_set_is_finished_rows ⟨[⟨"r1", "0001_init", none, 3, 0, none⟩], []⟩
    (fun _ => false) (fun _ => "id") 5 [⟨"0001_init", true, true, "A"⟩] [] []
    "0001_init").2 (by decide) (by decide) (by simp) (by decide)

/-- C5: an entry of the migrations root that is not a directory, or a
directory with no `migration.sql`, is silently skipped: its script is
never executed, no tracking record is written for its name, and it is
never reported as the failing unit. -/
theorem missing_script_skipped (f : String → Bool) (u : Nat → String) (now : Nat)
    (root : List Entry) (s : Store) (e : Entry)
    (hnd : (root.map (fun x => x.name)).Nodup)
    (he : e ∈ root) (hbad : e.isDir = false ∨ e.hasScript = false) :
    e.name ∉ (migrateRun f u now root s).execTrace ∧
    (∀ r ∈ (migrateRun f u now root s).store.rows,
      r.migration_name = e.name → r ∈ s.rows) ∧
    (∀ cause, (migrateRun f u now root s).failed ≠ some (e.name, cause)) := by
  have hm : migrateRun f u now root s =
      runUnits f u now root (appliedNames s) (listDirs root) s 0 [] := rfl
  rcases runUnits_struct f u now root (appliedNames s) (listDirs root) s 0 [] with
    ⟨t2, new, h1, h2, h3, h4, _, h6⟩
  have hinj := List.inj_on_of_nodup_map hnd
  have hnot : e.name ∉ t2 := by
    intro ht
    rcases h3 _ ht with ⟨hdl, _, hsq⟩
    rcases hbad with hbad | hbad
    · rcases List.mem_map.mp (mem_listDirs.mp hdl) with ⟨e', he', hn⟩
      rcases List.mem_filter.mp he' with ⟨he'root, he'dir⟩
      have : e' = e := hinj he'root he hn
      rw [this, hbad] at he'dir
      exact Bool.false_ne_true he'dir
    · rcases hfind : root.find? (fun x => decide (x.name = e.name) && x.isDir) with _ | e''
      · rw [sqlFileOf, hfind] at hsq
        simp at hsq
      · have hp := List.find?_some hfind
        have hp' : e''.name = e.name := by
          simp only [Bool.and_eq_true, decide_eq_true_eq] at hp
          exact hp.1
        have he''root := List.mem_of_find?_eq_some hfind
        have : e'' = e := hinj he''root he hp'
        rw [sqlFileOf, hfind, this] at hsq
        simp [hbad] at hsq
  have htr : (migrateRun f u now root s).execTrace = t2 := by rw [hm, h1]; rfl
  refine ⟨by rw [htr]; exact hnot, ?_, ?_⟩
  · intro r hr hname
    rw [hm, h2] at hr
    rcases List.mem_append.mp hr with hr | hr
    · exact hr
    · rcases h4 r hr with ⟨hn, _⟩
      rw [hname] at hn
      exact absurd hn hnot
  · intro cause hfl
    rw [hm] at hfl
    exact hnot (h6 _ hfl)

/-- C5 witness: a script-less directory and a plain file are both
ignored while the well-formed unit still applies. -/
theorem missing_script_skipped_witness :
    ("0002_broken" ∈ ([⟨"0001_init", true, true, "A"⟩, ⟨"0002_broken", true, false, ""⟩,
        ⟨"readme.txt", false, false, ""⟩] : List Entry).map (fun x => x.name)) ∧
    (⟨"0002_broken", true, false, ""⟩ : Entry).hasScript = false ∧
    "0002_broken" ∉ (migrateRun (fun _ => false) (fun _ => "id") 5
        [⟨"0001_init", true, true, "A"⟩, ⟨"0002_broken", true, false, ""⟩,
          ⟨"readme.txt", false, false, ""⟩] ⟨[], []⟩).execTrace ∧
    (∀ r ∈ (migrateRun (fun _ => false) (fun _ => "id") 5
        [⟨"0001_init", true, true, "A"⟩, ⟨"0002_broken", true, false, ""⟩,
          ⟨"readme.txt", false, false, ""⟩] ⟨[], []⟩).store.rows,
      r.migration_name = "0002_broken" → r ∈ (⟨[], []⟩ : Store).rows) ∧
    (∀ cause, (migrateRun (fun _ => false) (fun _ => "id") 5
        [⟨"0001_init", true, true, "A"⟩, ⟨"0002_broken", true, false, ""⟩,
          ⟨"readme.txt", false, false, ""⟩] ⟨[], []⟩).failed ≠
      some ("0002_broken", cause)) := by
  refine ⟨by decide, rfl, ?_⟩
  have h := missing_script_skipped (fun _ => false) (fun _ => "id") 5
    [⟨"0001_init", true, true, "A"⟩, ⟨"0002_broken", true, false, ""⟩,
      ⟨"readme.txt", false, false, ""⟩] ⟨[], []⟩ ⟨"0002_broken", true, false, ""⟩
    (by decide) (by decide) (Or.inr rfl)
  exact h

/-- C6: a run that completes without failure exits 0; its reported
count equals both the number of completion records inserted during the
run and the number of scripts executed; the empty root yields the
unchanged store, zero applied and success. -/
theorem applied_count_correct (f : String → Bool) (u : Nat → String) (now : Nat)
    (root : List Entry) (s : Store)
    (hok : (migrateRun f u now root s).failed = none) :
    runExit (migrateRun f u now root s) = 0 ∧
    (∃ new, (migrateRun f u now root s).store.rows = s.rows ++ new ∧
      new.map (fun r => r.migration_name) = (migrateRun f u now root s).execTrace ∧
      (migrateRun f u now root s).appliedCount = new.length ∧
      (migrateRun f u now root s).appliedCount =
        (migrateRun f u now root s).execTrace.length) ∧
    migrateRun f u now ([] : List Entry) s = ⟨s, 0, [], none⟩ := by
  have hm : migrateRun f u now root s =
      runUnits f u now root (appliedNames s) (listDirs root) s 0 [] := rfl
  rcases runUnits_success f u now root (appliedNames s) (listDirs root) s 0 [] hok with
    ⟨new, h1, h2, h3, _, h5⟩
  refine ⟨by simp [runExit, hok], ⟨new, by rw [hm, h2], ?_, by rw [hm, h5]; simp, ?_⟩, rfl⟩
  · rw [hm, h1, h3]
    rfl
  · rw [hm, h5, h1]
    simp [← h3]

/-- C6 witness: one of two units is already applied, so one applies. -/
theorem applied_count_correct_witness :
    runExit (migrateRun (fun _ => false) (fun _ => "id") 5
        [⟨"0001_init", true, true, "A"⟩, ⟨"0002_add_index", true, true, "B"⟩]
        ⟨[⟨"r1", "0001_init", some 3, 3, 1, none⟩], ["A"]⟩) = 0 ∧
    (∃ new, (migrateRun (fun _ => false) (fun _ => "id") 5
        [⟨"0001_init", true, true, "A"⟩, ⟨"0002_add_index", true, true, "B"⟩]
        ⟨[⟨"r1", "0001_init", some 3, 3, 1, none⟩], ["A"]⟩).store.rows =
        (⟨[⟨"r1", "0001_init", some 3, 3, 1, none⟩], ["A"]⟩ : Store).rows ++ new ∧
      new.map (fun r => r.migration_name) =
        (migrateRun (fun _ => false) (fun _ => "id") 5
          [⟨"0001_init", true, true, "A"⟩, ⟨"0002_add_index", true, true, "B"⟩]
          ⟨[⟨"r1", "0001_init", some 3, 3, 1, none⟩], ["A"]⟩).execTrace ∧
      (migrateRun (fun _ => false) (fun _ => "id") 5
          [⟨"0001_init", true, true, "A"⟩, ⟨"0002_add_index", true, true, "B"⟩]
          ⟨[⟨"r1", "0001_init", some 3, 3, 1, none⟩], ["A"]⟩).appliedCount = new.length ∧
      (migrateRun (fun _ => false) (fun _ => "id") 5
          [⟨"0001_init", true, true, "A"⟩, ⟨"0002_add_index", true, true, "B"⟩]
          ⟨[⟨"r1", "0001_init", some 3, 3, 1, none⟩], ["A"]⟩).appliedCount =
        (migrateRun (fun _ => false) (fun _ => "id") 5
          [⟨"0001_init", true, true, "A"⟩, ⟨"0002_add_index", true, true, "B"⟩]
          ⟨[⟨"r1", "0001_init", some 3, 3, 1, none⟩], ["A"]⟩).execTrace.length) ∧
    migrateRun (fun _ => false) (fun _ => "id") 5 ([] : List Entry)
        ⟨[⟨"r1", "0001_init", some 3, 3, 1, none⟩], ["A"]⟩ =
      ⟨⟨[⟨"r1", "0001_init", some 3, 3, 1, none⟩], ["A"]⟩, 0, [], none⟩ :=
  applied_count_correct (fun _ => false) (fun _ => "id") 5
    [⟨"0001_init", true, true, "A"⟩, ⟨"0002_add_index", true, true, "B"⟩]
    ⟨[⟨"r1", "0001_init", some 3, 3, 1, none⟩], ["A"]⟩ (by decide)

theorem sqlFileOf_nil (x : String) : sqlFileOf [] x = none := rfl

theorem sqlFileOf_cons (e : Entry) (rest : List Entry) (x : String) :
    sqlFileOf (e :: rest) x =
      if (decide (e.name = x) && e.isDir) = true then
        (if e.hasScript then some e.script else none)
      else sqlFileOf rest x := by
  by_cases hp : (decide (e.name = x) && e.isDir) = true
  · rw [if_pos hp, sqlFileOf,
      @List.find?_cons_of_pos _ (fun y => decide (y.name = x) && y.isDir) e rest hp]
  · rw [if_neg hp, sqlFileOf,
      @List.find?_cons_of_neg _ (fun y => decide (y.name = x) && y.isDir) e rest hp,
      sqlFileOf]

theorem listDirs_setNoScript (root : List Entry) (d : String) :
    listDirs (setNoScript root d) = listDirs root := by
  unfold listDirs
  congr 1
  induction root with
  | nil => rfl
  | cons e rest ih =>
    by_cases hn : e.name = d <;> by_cases hd : e.isDir = true <;>
      simp [setNoScript, hn, hd, List.filter_cons] at ih ⊢ <;> exact ih

theorem sqlFileOf_setNoScript {root : List Entry} {d x : String} (hx : x ≠ d) :
    sqlFileOf (setNoScript root d) x = sqlFileOf root x := by
  induction root with
  | nil => rfl
  | cons e rest ih =>
    have hmap : setNoScript (e :: rest) d =
        (if e.name = d then ⟨e.name, e.isDir, false, ""⟩ else e) :: setNoScript rest d := rfl
    by_cases hn : e.name = d
    · have hne : ¬(e.name = x) := fun h => hx (h ▸ hn)
      rw [hmap, if_pos hn, sqlFileOf_cons, sqlFileOf_cons]
      simp only [hne, decide_False, Bool.false_and, if_neg, Bool.false_eq_true,
        not_false_iff]
      exact ih
    · rw [hmap, if_neg hn, sqlFileOf_cons, sqlFileOf_cons]
      by_cases hp : (decide (e.name = x) && e.isDir) = true
      · rw [if_pos hp, if_pos hp]
      · rw [if_neg hp, if_neg hp]
        exact ih

/-- The loop consults the filesystem only through `sqlFileOf`, and only
for units not in the applied set. -/
theorem runUnits_congr (f : String → Bool) (u : Nat → String) (now : Nat)
    (root1 root2 : List Entry) (A : List String) :
    ∀ (l : List String) (s : Store) (c : Nat) (tr : List String),
    (∀ x ∈ l, x ∉ A → sqlFileOf root1 x = sqlFileOf root2 x) →
    runUnits f u now root1 A l s c tr = runUnits f u now root2 A l s c tr
  | [], _, _, _, _ => rfl
  | d :: rest, s, c, tr, h => by
    have hrest : ∀ x ∈ rest, x ∉ A → sqlFileOf root1 x = sqlFileOf root2 x :=
      fun x hx => h x (List.mem_cons_of_mem d hx)
    by_cases hA : d ∈ A
    · simp only [runUnits, if_pos hA]
      exact runUnits_congr f u now root1 root2 A rest s c tr hrest
    · have hs := h d (List.mem_cons_self d rest) hA
      rcases hsql : sqlFileOf root1 d with _ | sql
    <;> rw [hsql] at hs
      · simp only [runUnits, if_neg hA, hsql, ← hs]
        exact runUnits_congr f u now root1 root2 A rest s c tr hrest
      · by_cases hfail : f sql = true
        · simp only [runUnits, if_neg hA, hsql, ← hs, if_pos hfail]
        · by_cases hdup : s.rows.any (fun r => decide (r.migration_name = d)) = true
          · simp only [runUnits, if_neg hA, hsql, ← hs, if_neg hfail, if_pos hdup]
          · simp only [runUnits, if_neg hA, hsql, ← hs, if_neg hfail, if_neg hdup]
            exact runUnits_congr f u now root1 root2 A rest _ _ _ hrest

/-- C7: root resolution tries the working-directory candidate first and
the executable-directory candidate second, using the first that exists;
when neither exists the migrate phase stops with `rootNotFound` (no run
outcome at all, so no unit is attempted) and exit status 1. -/
theorem root_resolution_first_match (existsFs : String → Bool) (cwd execDir : String)
    (fsAt : String → List Entry) (f : String → Bool) (u : Nat → String) (now : Nat)
    (s : Store) :
    (existsFs (cwd ++ "/prisma/migrations") = true →
      resolveRoot existsFs cwd execDir = some (cwd ++ "/prisma/migrations")) ∧
    (existsFs (cwd ++ "/prisma/migrations") = false →
      existsFs (execDir ++ "/prisma/migrations") = true →
      resolveRoot existsFs cwd execDir = some (execDir ++ "/prisma/migrations")) ∧
    (existsFs (cwd ++ "/prisma/migrations") = false →
      existsFs (execDir ++ "/prisma/migrations") = false →
      resolveRoot existsFs cwd execDir = none ∧
      migrateTop existsFs cwd execDir fsAt f u now s = .rootNotFound ∧
      migrateTopExit (migrateTop existsFs cwd execDir fsAt f u now s) = 1) := by
  refine ⟨fun h1 => ?_, fun h1 h2 => ?_, fun h1 h2 => ?_⟩
  · simp [resolveRoot, rootCandidates, List.find?_cons_of_pos, h1]
  · simp [resolveRoot, rootCandidates, List.find?_cons_of_neg, h1, h2,
      List.find?_cons_of_pos]
  · have hr : resolveRoot existsFs cwd execDir = none := by
      simp [resolveRoot, rootCandidates, List.find?_cons_of_neg, h1, h2]
    refine ⟨hr, ?_, ?_⟩ <;> simp [migrateTop, hr, migrateTopExit]

/-- C7 witness: no candidate exists. -/
theorem root_resolution_first_match_witness :
    resolveRoot (fun _ => false) "/cwd" "/exe" = none ∧
    migrateTop (fun _ => false) "/cwd" "/exe" (fun _ => []) (fun _ => false)
      (fun _ => "id") 5 ⟨[], []⟩ = .rootNotFound ∧
    migrateTopExit (migrateTop (fun _ => false) "/cwd" "/exe" (fun _ => [])
      (fun _ => false) (fun _ => "id") 5 ⟨[], []⟩) = 1 :=
  (root_resolution_first_match (fun _ => false) "/cwd" "/exe" (fun _ => [])
    (fun _ => false) (fun _ => "id") 5 ⟨[], []⟩).2.2 rfl rfl

/-- C8: the dispatcher runs `migrate` and `serve` on their tokens;
`--help` and `-h` print usage and exit 0; any other token, or no token
at all, prints usage and exits 1. -/
theorem dispatch_command_switch :
    dispatch (some "migrate") = .runMigrate ∧
    dispatch (some "serve") = .runServe ∧
    dispatch none = .usage 1 ∧
    dispatch (some "--help") = .usage 0 ∧
    dispatch (some "-h") = .usage 0 ∧
    (∀ t : String, t ≠ "migrate" → t ≠ "serve" → t ≠ "--help" → t ≠ "-h" →
      dispatch (some t) = .usage 1) := by
  refine ⟨by decide, by decide, by decide, by decide, by decide, ?_⟩
  intro t h1 h2 h3 h4
  simp [dispatch, h1, h2, h3, h4]

/-- C8 witness: an unrecognized command exits 1. -/
theorem dispatch_command_switch_witness :
    dispatch (some "frobnicate") = .usage 1 :=
  dispatch_command_switch.2.2.2.2.2 "frobnicate" (by decide) (by decide) (by decide)
    (by decide)

/-- C9: the already-applied check comes before the script-file check:
for a unit with a finished tracking record, deleting its script file
changes nothing about the run; the unit's script is never executed and
the unit is never the reported failure. -/
theorem applied_check_precedes_script_check (f : String → Bool) (u : Nat → String)
    (now : Nat) (root : List Entry) (s : Store) (d : String)
    (hA : d ∈ appliedNames s) :
    migrateRun f u now root s = migrateRun f u now (setNoScript root d) s ∧
    d ∉ (migrateRun f u now root s).execTrace ∧
    (∀ cause, (migrateRun f u now root s).failed ≠ some (d, cause)) := by
  have hm : migrateRun f u now root s =
      runUnits f u now root (appliedNames s) (listDirs root) s 0 [] := rfl
  rcases runUnits_struct f u now root (appliedNames s) (listDirs root) s 0 [] with
    ⟨t2, new, h1, _, h3, _, _, h6⟩
  have hnot : d ∉ t2 := fun ht => (h3 d ht).2.1 hA
  refine ⟨?_, ?_, ?_⟩
  · rw [show migrateRun f u now (setNoScript root d) s =
      runUnits f u now (setNoScript root d) (appliedNames s)
        (listDirs (setNoScript root d)) s 0 [] from rfl, listDirs_setNoScript, hm]
    refine runUnits_congr f u now root (setNoScript root d) (appliedNames s)
      (listDirs root) s 0 [] ?_
    intro x _ hxA
    by_cases hxd : x = d
    · exact absurd (hxd ▸ hA) hxA
    · exact (sqlFileOf_setNoScript hxd).symm
  · rw [hm, h1]
    simpa using hnot
  · intro cause hfl
    rw [hm] at hfl
    exact hnot (h6 _ hfl)

/-- C9 witness: an applied unit whose script file is gone. -/
theorem applied_check_precedes_script_check_witness :
    migrateRun (fun _ => false) (fun _ => "id") 5 [⟨"0001_init", true, false, ""⟩]
        ⟨[⟨"r1", "0001_init", some 3, 3, 1, none⟩], ["A"]⟩ =
      migrateRun (fun _ => false) (fun _ => "id") 5
        (setNoScript [⟨"0001_init", true, false, ""⟩] "0001_init")
        ⟨[⟨"r1", "0001_init", some 3, 3, 1, none⟩], ["A"]⟩ ∧
    "0001_init" ∉ (migrateRun (fun _ => false) (fun _ => "id") 5
        [⟨"0001_init", true, false, ""⟩]
        ⟨[⟨"r1", "0001_init", some 3, 3, 1, none⟩], ["A"]⟩).execTrace ∧
    (∀ cause, (migrateRun (fun _ => false) (fun _ => "id") 5
        [⟨"0001_init", true, false, ""⟩]
        ⟨[⟨"r1", "0001_init", some 3, 3, 1, none⟩], ["A"]⟩).failed ≠
      some ("0001_init", cause)) :=
  applied_check_precedes_script_check (fun _ => false) (fun _ => "id") 5
    [⟨"0001_init", true, false, ""⟩] ⟨[⟨"r1", "0001_init", some 3, 3, 1, none⟩], ["A"]⟩
    "0001_init" (by decide)

/-- C10 as stated is false: `serve` guards the mutation with JavaScript
truthiness, so a `DATABASE_URL` that is present but empty (falsy) does
not prevent the `PGLITE_DIR` assignment.  Concretely, with
`DATABASE_URL=""` set and `PGLITE_DIR` unset, the claim says the
environment is left unchanged, but `serve` sets `PGLITE_DIR`. -/
theorem serve_claim_counterexample :
    (Env.mk none none (some "") []).DATABASE_URL ≠ none ∧
    serveEnv (Env.mk none none (some "") []) ≠ Env.mk none none (some "") [] := by
  decide

/-- C10 amended: `serve` mutates only the `PGLITE_DIR` environment
value, and only when `DATABASE_URL` is unset or empty (JavaScript
falsy): with a non-empty `DATABASE_URL` it changes nothing, and
otherwise every variable except `PGLITE_DIR` is unchanged while
`PGLITE_DIR` becomes `PGLITE_DIR || pgliteDir`; `serve` itself performs
no store operation. -/
theorem serve_env_frame (e : Env) :
    (truthy e.DATABASE_URL = true → serveEnv e = e) ∧
    (truthy e.DATABASE_URL = false →
      (serveEnv e).DATA_DIR = e.DATA_DIR ∧
      (serveEnv e).DATABASE_URL = e.DATABASE_URL ∧
      (serveEnv e).others = e.others ∧
      (serveEnv e).PGLITE_DIR = some (jsOr e.PGLITE_DIR (pgliteDirOf e))) := by
  constructor
  · intro h
    simp [serveEnv, h]
  · intro h
    refine ⟨?_, ?_, ?_, ?_⟩ <;> simp [serveEnv, h]

/-- C10 witness: a non-empty `DATABASE_URL` leaves the environment
untouched; an absent one rewrites only `PGLITE_DIR`. -/
theorem serve_env_frame_witness :
    serveEnv ⟨none, none, some "postgres://h/db", []⟩ =
      ⟨none, none, some "postgres://h/db", []⟩ ∧
    (serveEnv ⟨some "/d", none, none, [("PORT", "3005")]⟩).DATA_DIR = some "/d" ∧
    (serveEnv ⟨some "/d", none, none, [("PORT", "3005")]⟩).DATABASE_URL = none ∧
    (serveEnv ⟨some "/d", none, none, [("PORT", "3005")]⟩).others = [("PORT", "3005")] ∧
    (serveEnv ⟨some "/d", none, none, [("PORT", "3005")]⟩).PGLITE_DIR =
      some (jsOr none (pgliteDirOf ⟨some "/d", none, none, [("PORT", "3005")]⟩)) :=
  ⟨(serve_env_frame ⟨none, none, some "postgres://h/db", []⟩).1 (by decide),
    (serve_env_frame ⟨some "/d", none, none, [("PORT", "3005")]⟩).2 (by decide)⟩

end Happy
